import Mathlib

/-
Verification of the statistics engine of pyprophet (src/pyprophet/stats.py and
src/pyprophet/pyprophet.py) against its natural-language specification.

The embedding works over exact rationals: a numpy float64 array is a List of
rationals, NaN is tracked explicitly where the source can produce it
(np.mean / np.std of degenerate samples), and operations that can raise in
Python (sys.exit, assert, IndexError, NameError, AttributeError) return
Except String values.  Transcendental steps (the normal CDF inside pnorm and
the kernel-density / spline estimate inside lfdr) have no exact rational
value; they enter as explicit function parameters (phi, r) so that every
theorem quantifies over the numeric values they could take.  Rational
division by zero is Lean-zero; each place where the source would instead
produce an inf/nan is noted next to its definition.
-/

namespace PyProphet

instance {ε α : Type} [DecidableEq ε] [DecidableEq α] : DecidableEq (Except ε α) := fun a b =>
  match a, b with
  | .ok x, .ok y =>
    if h : x = y then .isTrue (by rw [h]) else
      .isFalse (by intro hc; injection hc; contradiction)
  | .ok _, .error _ => .isFalse (by intro hc; injection hc)
  | .error _, .ok _ => .isFalse (by intro hc; injection hc)
  | .error e, .error f =>
    if h : e = f then .isTrue (by rw [h]) else
      .isFalse (by intro hc; injection hc; contradiction)

/-! ## Python-level helpers -/

/-- Python range(a, b) with step 1: the integers a, a+1, ..., b-1. -/
def pyRange (a b : ℤ) : List ℤ :=
  if a < b then (List.range (b - a).toNat).map (fun k => a + (k : ℤ)) else []

/-- Resolve a (possibly negative) Python index into an array of length n;
none models an out-of-bounds access, which numpy turns into IndexError. -/
def pyIdx (n : ℕ) (i : ℤ) : Option ℕ :=
  if 0 ≤ i ∧ i < (n : ℤ) then some i.toNat
  else if -(n : ℤ) ≤ i ∧ i < 0 then some (i + (n : ℤ)).toNat
  else none

/-! ## Sorting (numpy sorts and argsorts)

Insertion sort with a boolean "comes before or equal" test.  For argsorts the
keys are (value, original index) pairs, which are pairwise distinct, so the
result is the unique stable order; np.argsort with an unstable kind can differ
from it only on tied values, and every use below reads or writes data that is
constant across a tie, so the stable order is extensionally faithful (the one
tie-sensitive write, qvals[u[m-1]] in qvalue, is value-preserving there: see
the comment on qvaluePy). -/

def insertLe {α : Type} (le : α → α → Bool) (x : α) : List α → List α
  | [] => [x]
  | y :: ys => if le x y then x :: y :: ys else y :: insertLe le x ys

def isortLe {α : Type} (le : α → α → Bool) : List α → List α
  | [] => []
  | x :: xs => insertLe le x (isortLe le xs)

/-- Ascending sort of rationals (np.sort). -/
def sortAsc (xs : List ℚ) : List ℚ :=
  isortLe (fun a b => decide (a ≤ b)) xs

/-- Descending sort of rationals (np.sort followed by [::-1]). -/
def sortDesc (xs : List ℚ) : List ℚ :=
  isortLe (fun a b => decide (b ≤ a)) xs

/-- Key order for a stable ascending argsort: by value, ties by index. -/
def leValIdx (a b : ℚ × ℕ) : Bool :=
  if a.1 < b.1 then true else if a.1 = b.1 then decide (a.2 ≤ b.2) else false

/-- Key order for a stable descending argsort (np.argsort of the negated
array with kind mergesort): by value descending, ties by index. -/
def geValIdx (a b : ℚ × ℕ) : Bool :=
  if b.1 < a.1 then true else if a.1 = b.1 then decide (a.2 ≤ b.2) else false

/-- Stable ascending argsort (np.argsort). -/
def argsortAsc (xs : List ℚ) : List ℕ :=
  (isortLe leValIdx (xs.enum.map (fun p => (p.2, p.1)))).map (fun p => p.2)

/-- Stable descending argsort: np.argsort(-xs, kind="mergesort"). -/
def argsortDesc (xs : List ℚ) : List ℕ :=
  (isortLe geValIdx (xs.enum.map (fun p => (p.2, p.1)))).map (fun p => p.2)

/-! ## Rank statistics (scipy.stats.rankdata) -/

/-- rankdata(xs, "max") at a value x: the count of entries at most x. -/
def rankMax (xs : List ℚ) (x : ℚ) : ℕ :=
  xs.countP (fun y => decide (y ≤ x))

/-- rankdata(xs, "min") as a list: rank of each entry with ties mapped to the
first position of their block, i.e. one plus the count of strictly smaller
entries. -/
def rankMinList (xs : List ℚ) : List ℕ :=
  xs.map (fun x => xs.countP (fun y => decide (y < x)) + 1)

/-- floor(rankdata(-stat)) - 1 as used by pemp (stats.py:220): the default
"average" method averages the smallest and largest rank of a tie block; the
rank is taken in the descending order of stat. -/
def pempRank (stat : List ℚ) (x : ℚ) : ℕ :=
  let minr : ℚ := (stat.countP (fun y => decide (x < y)) : ℚ) + 1
  let maxr : ℚ := (stat.countP (fun y => decide (x ≤ y)) : ℚ)
  (Int.floor ((minr + maxr) / 2) - 1).toNat

/-! ## Running maxima (pandas cummax, and the in-place loop of lfdr) -/

def cummaxFrom (m : ℚ) : List ℚ → List ℚ
  | [] => []
  | x :: xs => max m x :: cummaxFrom (max m x) xs

/-- Running maximum of a list (pd.Series.cummax; also the effect of the
in-place loop at stats.py:457-459). -/
def cummax : List ℚ → List ℚ
  | [] => []
  | x :: xs => x :: cummaxFrom x xs

/-! ## Error messages (Python exceptions and sys.exit calls) -/

def msgMinEmpty : String := "ValueError: min arg is an empty sequence"

def msgPRange : String := "SystemExit: Error: p-values not in valid range [0,1]."

def msgPi0Range : String := "SystemExit: Error: pi0 not in valid range [0,1]."

def msgLamRange : String := "SystemExit: Error: Lambda must be within [0,1)"

def msgPi0LeZero : String :=
  "SystemExit: Error: The estimated pi0 <= 0. Check that you have valid p-values or use a different range of lambda."

def msgIndexError : String := "IndexError: index out of bounds for axis 0"

def msgNameError : String := "NameError: name p_values is not defined"

def msgAssertionError : String := "AssertionError"

def msgBandwidth : String :=
  "SystemExit: Error: bandwidth estimation requires at least two data points."

/-! ## qvalue (stats.py:352-377)

qvalue(p, pi0, pfdr) computes qvals pointwise from the max-rank of each
p-value, caps the q-value of the (an) entry with the largest p-value at 1,
then runs `for i in range(m - 2, 1, 1)` over the ascending argsort u.  That
range is empty whenever m is at least 3, is [0] when m = 2, and is [-1, 0]
when m = 1 (where u[i + 1] = u[1] is out of bounds).  Finally the result is
written back through the alias qvals_out = p (line 354), so the caller's
array object itself ends up holding the q-values; the function returns that
same object (line 377).  On rational (hence finite) input the rm_na mask is
all-true.

The cap write qvals[u[m-1]] is tie-insensitive: entries tied at the maximal
p-value share one max-rank m, so their raw q-value is pi0 * p_max (non-pfdr)
or pi0 * p_max / (1 - (1 - p_max)^m) (pfdr), which the validated ranges keep
at most 1, making min(.., 1) the identity whichever tied index an unstable
argsort would pick. -/

/-- The raw qvals vector before capping (stats.py:364-370). -/
def rawQvals (p : List ℚ) (pi0 : ℚ) (pfdr : Bool) : List ℚ :=
  let m : ℚ := (p.length : ℚ)
  p.map (fun x =>
    let v : ℚ := (rankMax p x : ℚ)
    if pfdr then (pi0 * m * x) / (v * (1 - (1 - x) ^ p.length))
    else (pi0 * m * x) / v)

/-- One iteration of the loop at stats.py:373-374, with Python indexing into
u (negative indices wrap; out of bounds raises IndexError). -/
def qstep (u : List ℕ) : Except String (List ℚ) → ℤ → Except String (List ℚ)
  | .error e, _ => .error e
  | .ok q, i =>
    match pyIdx u.length i, pyIdx u.length (i + 1) with
    | some a, some b =>
      let ua := u.getD a 0
      let ub := u.getD b 0
      .ok (q.set ua (min (q.getD ua 0) (q.getD ub 0)))
    | _, _ => .error msgIndexError

/-- qvalue (stats.py:352-377): the returned list is also the new content of
the array passed as p (see the aliasing discussion on mkErrTable below). -/
def qvaluePy (p : List ℚ) (pi0 : ℚ) (pfdr : Bool) : Except String (List ℚ) :=
  if p.isEmpty then .error msgMinEmpty
  else if p.any (fun x => decide (x < 0)) || p.any (fun x => decide (1 < x)) then
    .error msgPRange
  else if pi0 < 0 ∨ 1 < pi0 then .error msgPi0Range
  else
    let m := p.length
    let u := argsortAsc p
    let q0 := rawQvals p pi0 pfdr
    let lastIdx := u.getD (m - 1) 0
    let q1 := q0.set lastIdx (min (q0.getD lastIdx 0) 1)
    (pyRange ((m : ℤ) - 2) 1).foldl (qstep u) (.ok q1)

/-- Follows the words of the spec (section 4.4 step 5): after the cap at 1,
"enforce monotonicity by sweeping from the largest p-value down, each q-value
capped at the next (larger-p) q-value" — the sweep visits i = m-2 down to 0
and caps qvals[u[i]] at qvals[u[i+1]].  Kept separate from qvaluePy so the
two can be compared. -/
def qvalueSpecSweep (p : List ℚ) (pi0 : ℚ) (pfdr : Bool) : List ℚ :=
  let m := p.length
  let u := argsortAsc p
  let q0 := rawQvals p pi0 pfdr
  let lastIdx := u.getD (m - 1) 0
  let q1 := q0.set lastIdx (min (q0.getD lastIdx 0) 1)
  ((List.range (m - 1)).reverse).foldl
    (fun q i =>
      let ua := u.getD i 0
      let ub := u.getD (i + 1) 0
      q.set ua (min (q.getD ua 0) (q.getD ub 0)))
    q1

/-! ## pi0est (stats.py:282-349), single-point lambda grid

A scalar lambda (or a one-point grid) takes the ll == 1 branch: the estimate
is mean(p >= lambda)/(1 - lambda), capped at 1; the function then aborts via
sys.exit when the capped estimate is not positive (stats.py:346-347).  On an
empty p (or when every entry was non-finite and rm_na removed it) the builtin
min(p) at stats.py:305 raises ValueError before anything else.  Only the pi0
entry of the returned dict is modelled; pi0_lambda, lambda_ and pi0_smooth
are not read by the claims.  The min(p) < 0 / max(p) > 1 test is rendered as
an any-test, which agrees with it on nonempty lists. -/

def pi0estQ (p : List ℚ) (lam : ℚ) : Except String ℚ :=
  if p.isEmpty then .error msgMinEmpty
  else if p.any (fun x => decide (x < 0)) || p.any (fun x => decide (1 < x)) then
    .error msgPRange
  else if lam < 0 ∨ 1 ≤ lam then .error msgLamRange
  else
    let pi0 : ℚ := ((p.countP (fun x => decide (lam ≤ x)) : ℚ) / (p.length : ℚ)) / (1 - lam)
    let pi0c := min pi0 1
    if pi0c ≤ 0 then .error msgPi0LeZero else .ok pi0c

/-! ## pemp (stats.py:196-224)

Empirical p-values of stat against the null sample stat0: concatenate, argsort
descending with a stable mergesort, read off the positions u of the target
entries, set p[k] = (u[k] - k)/m0 for the k-th largest target, reindex by the
floored average descending rank of each stat entry, and finally floor every
value at 1/m0.  The getD defaults are never reached: ranks lie in [0, m). -/

def pempE (stat stat0 : List ℚ) : Except String (List ℚ) :=
  if stat0.isEmpty then .error msgAssertionError
  else if stat.isEmpty then .error msgAssertionError
  else
    let m := stat.length
    let m0 : ℚ := (stat0.length : ℚ)
    let statc := stat ++ stat0
    let perm := argsortDesc statc
    let v := perm.map (fun i => decide (i < m))
    let u := (v.enum.filter (fun q => q.2 = true)).map (fun q => q.1)
    let p1 := u.enum.map (fun q => ((q.2 : ℚ) - (q.1 : ℚ)) / m0)
    let ranks := stat.map (pempRank stat)
    let p2 := ranks.map (fun rk => p1.getD rk 0)
    .ok (p2.map (fun x => if x ≤ 1 / m0 then 1 / m0 else x))

/-! ## mean_and_std_dev (stats.py:227-228) and the p-value stage

np.mean of an empty array is NaN; np.std with ddof = 1 is NaN whenever the
sample has fewer than two points (0/0).  Only NaN-ness is modelled: the finite
mean and standard deviation flow into pnorm alone, whose normal CDF has no
exact rational value, so the whole finite branch of
1 - pnorm(target_scores, mu, nu) is abstracted as the function parameter phi
(one rational per score).  When mu or nu is NaN every pnorm output is NaN. -/

def meanAndStdDevIsNaN (xs : List ℚ) : Bool × Bool :=
  (xs.isEmpty, decide (xs.length ≤ 1))

/-- Stage 1 of error_statistics (stats.py:471-480): sorted finite target
scores, then empirical or parametric p-values.  Returns some ps for a finite
p-value vector and none when the decoy sample made every p-value NaN. -/
def targetPvaluesStage (phi : ℚ → ℚ) (targetScores decoyScores : List ℚ)
    (usePemp : Bool) : Except String (Option (List ℚ)) :=
  let ts := sortAsc targetScores
  if usePemp then (pempE ts decoyScores).map some
  else if (meanAndStdDevIsNaN decoyScores).1 || (meanAndStdDevIsNaN decoyScores).2 then
    .ok none
  else .ok (some (ts.map (fun x => 1 - phi x)))

/-! ## lfdr (stats.py:395-463)

The claims concern the truncation and monotonisation steps, not the density
estimate: the raw local FDR pi0 * dnorm(probit p) / y(probit p) is a pointwise
function of the eps-clamped p-value (the kernel density y is evaluated at the
same probit point), with transcendental value, so it enters as the parameter
r applied to each clamped p-value (r absorbs pi0 and the transform choice).
After it: values above 1 are set to 1 when trunc is on (stats.py:453-454 —
nothing is done below 0); when monotone is on the values are put in ascending
p order, forced non-decreasing by the in-place loop, and un-sorted through
rankdata(p, "min") - 1 (stats.py:455-460).  Before any of that, the
bandwidth rule bw_nrd0 applied to the probit (or logit) points — one per
p-value — exits for fewer than two data points (stats.py:380-382, called at
427 and 441), so lfdr aborts on singleton input.  lfdr copies its input
(p = np.array(p_values), stats.py:398), so unlike qvalue it does not mutate
the caller.  The getD defaults are never reached (ranks lie in [1, len]). -/

def lfdrRaw (r : ℚ → ℚ) (p : List ℚ) (eps : ℚ) : List ℚ :=
  (p.map (fun x => min (max x eps) (1 - eps))).map r

/-- The truncation and monotone steps (stats.py:453-460) applied to the raw
local FDR values. -/
def lfdrCore (r : ℚ → ℚ) (pvalues : List ℚ) (trunc monotone : Bool)
    (eps : ℚ) : List ℚ :=
  let pC := pvalues.map (fun x => min (max x eps) (1 - eps))
  let raw := lfdrRaw r pvalues eps
  let l1 := if trunc then raw.map (fun v => if 1 < v then 1 else v) else raw
  if monotone then
    (rankMinList pC).map
      (fun rk => (cummax ((argsortAsc pC).map (fun i => l1.getD i 0))).getD (rk - 1) 0)
  else l1

def lfdrQ (r : ℚ → ℚ) (pvalues : List ℚ) (pi0 : ℚ) (trunc monotone : Bool)
    (eps : ℚ) : Except String (List ℚ) :=
  if pvalues.isEmpty then .error msgMinEmpty
  else if pvalues.any (fun x => decide (x < 0)) || pvalues.any (fun x => decide (1 < x)) then
    .error msgPRange
  else if pi0 < 0 ∨ 1 < pi0 then .error msgPi0Range
  else if pvalues.length ≤ 1 then .error msgBandwidth
  else .ok (lfdrCore r pvalues trunc monotone eps)

/-! ## count_num_positives

Modelled from the spec: count_num_positives comes from the optimized
extension module, which is not part of the two source files.  Spec section
4.4 step 6 derives tp/fp/tn/fn "per cutoff row" from "estimated positives via
a rank-based positive-count primitive", and section 6 describes it as, given
sorted p-values, the count of values below the threshold of the row; for the
descending p-value vector that is, per row, the number of entries at most the
row entry (the candidates accepted at that cutoff). -/
def countNumPositives (p : List ℚ) : List ℕ :=
  p.map (fun x => p.countP (fun y => decide (y ≤ x)))

/-! ## error_statistics (stats.py:466-519) -/

/-- The row-aligned columns of the DataFrame built at stats.py:511 plus the
optional pep column of stats.py:515, together with the returned pi0.  The
source keeps num_null and num_total only as locals; pi0 is returned next to
the frame (stats.py:519) and num_null = pi0 * num_total. -/
structure ErrTable where
  cutoff : List ℚ
  pvalue : List ℚ
  qvalue : List ℚ
  svalue : List ℚ
  tp : List ℚ
  fp : List ℚ
  tn : List ℚ
  fn : List ℚ
  fpr : List ℚ
  fdr : List ℚ
  fnr : List ℚ
  pep : Option (List ℚ)
deriving DecidableEq

/-- The summary columns of stats.py:489-515 and the frame of line 511.  The
in-place write of qvalue through its qvals_out = p alias (stats.py:354,376)
means that after line 486 the array named target_pvalues holds the q-values,
so every later read of target_pvalues — num_total and the positive counts
(489-490), tp/fp/tn/fn (493-496), the pvalue column of the frame (511) and
the lfdr input (515) — sees the q-values: qvals below is that shared content,
used wherever the source writes either target_pvalues or target_qvalues.
All these columns are pure element-wise arithmetic (no exceptions), so
building them after the control flow of errorStatistics is unobservable. -/
def mkErrTable (targetScores qvals : List ℚ) (pi0 : ℚ)
    (pep : Option (List ℚ)) : ErrTable :=
  let numTotal : ℚ := (qvals.length : ℚ)
  let numPositives := countNumPositives qvals
  let numNull := pi0 * numTotal
  let tp := (numPositives.zip qvals).map (fun c => ((c.1 : ℚ)) - numNull * c.2)
  let fp := qvals.map (fun q => numNull * q)
  let tn := qvals.map (fun q => numNull * (1 - q))
  let fn := (numPositives.zip qvals).map
    (fun c => (numTotal - (c.1 : ℚ)) - numNull * (1 - c.2))
  let fpr := fp.map (fun x => x / numNull)
  let fdr := (fp.zip numPositives).map (fun c => c.1 / ((c.2 : ℚ)))
  let fnr := (fn.zip numPositives).map (fun c => c.1 / (numTotal - (c.2 : ℚ)))
  let sens := tp.map (fun x => x / (numTotal - numNull))
  let svalue := (cummax sens.reverse).reverse
  { cutoff := sortAsc targetScores, pvalue := qvals, qvalue := qvals,
    svalue := svalue, tp := tp, fp := fp, tn := tn, fn := fn, fpr := fpr,
    fdr := fdr, fnr := fnr, pep := pep }

/-- error_statistics (stats.py:466-519).  phi abstracts pnorm on finite
decoy statistics, r abstracts the lfdr density (see above).  Rational
division by zero yields 0 where numpy would emit inf/nan inside the fpr,
fdr, fnr and sens columns without raising; no claim reads those values at a
zero denominator.  With use_pfdr the source computes the pFDR adjustment of
fdr (stats.py:502-503) and then evaluates the undefined name p_values at
line 505, raising NameError unconditionally, before any later column or the
frame is built. -/
def errorStatistics (phi r : ℚ → ℚ) (targetScores decoyScores : List ℚ) (lam : ℚ)
    (usePemp usePfdr computeLfdr lfdrTrunc lfdrMonotone : Bool) (eps : ℚ) :
    Except String (ErrTable × ℚ) :=
  (targetPvaluesStage phi targetScores decoyScores usePemp).bind (fun pOpt =>
    let ps := sortDesc (pOpt.getD [])
    (pi0estQ ps lam).bind (fun pi0 =>
      (qvaluePy ps pi0 usePfdr).bind (fun qvals =>
        if usePfdr then
          .error msgNameError
        else
          (if computeLfdr then
             (lfdrQ r qvals pi0 lfdrTrunc lfdrMonotone eps).map some
           else .ok none).bind (fun pep =>
            .ok (mkErrTable targetScores qvals pi0 pep, pi0)))))

/-- The sens vector of stats.py:508 recovered from a result row-wise:
tp / (num_total - num_null) with num_total the row count and
num_null = pi0 * num_total. -/
def sensOf (t : ErrTable) (pi0 : ℚ) : List ℚ :=
  t.tp.map (fun x => x / ((t.pvalue.length : ℚ) - pi0 * (t.pvalue.length : ℚ)))

/-! ## posterior_chromatogram_hypotheses_fast (stats.py:131-184)

The per-group kernel single_chromatogram_hypothesis_fast comes from the
optimized extension module, which is not part of the two source files, so it
is modelled from the spec (section 4.5): within a group of size k the k+1
mutually exclusive, group-exhaustive hypotheses are "row i is the single true
peak" (each with the prior h_prior passed by the caller) and h0 = "no row of
the group is true" (prior h0_prior); the argument scores holds each row's
probability of being false (the caller passes 1 - pg_score, stats.py:176),
so the likelihood of hypothesis i is (1 - scores[i]) * prod of the other
scores, the likelihood of h0 is the product of all scores, and the output is
the normalized posterior vector with h0 first: the caller reads rr[0] as the
h0 of the group and rr[1:] as the per-row hypothesis probabilities
(stats.py:169-170,181-182). -/

/-- For scores s, the list with entry i equal to
(1 - s_i) * product of the other entries. -/
def hypProducts : List ℚ → List ℚ
  | [] => []
  | x :: xs => ((1 - x) * xs.prod) :: (hypProducts xs).map (fun y => x * y)

/-- The unnormalized posterior masses, h0 first. -/
def chfNums (scores : List ℚ) (h0prior hprior : ℚ) : List ℚ :=
  (h0prior * scores.prod) :: (hypProducts scores).map (fun y => hprior * y)

/-- Modelled from the spec: single_chromatogram_hypothesis_fast (see the
section comment above). -/
def singleChromatogramHypothesisFast (scores : List ℚ) (h0prior hprior : ℚ) : List ℚ :=
  (chfNums scores h0prior hprior).map
    (fun y => y / (chfNums scores h0prior hprior).sum)

/-- One flush of a finished group (stats.py:165-170 and 178-182): the prior
of each single-peak hypothesis is (1 - prior_chrom_null)/k, the tail of rr
extends the per-row hypothesis output, and rr[0] is replicated once per row
of the group. -/
def chfFlush (prior : ℚ) (scores : List ℚ) : List ℚ × List ℚ :=
  let rr := singleChromatogramHypothesisFast scores prior
    ((1 - prior) / (scores.length : ℚ))
  (rr.tail, List.replicate scores.length (rr.headD 0))

/-- The row sent into the accumulating scores list: 1 - pg_score
(stats.py:176). -/
def rowScore (rp : ℤ × ℚ) : ℚ := 1 - rp.2

/-- The loop of stats.py:160-182 in state-passing form: current group id,
accumulated scores of the open group, remaining rows. -/
def pchfLoop (prior : ℚ) : ℤ → List ℚ → List (ℤ × ℚ) → List ℚ × List ℚ
  | _, scores, [] => chfFlush prior scores
  | current, scores, (idv, pg) :: rest =>
    if idv ≠ current then
      ((chfFlush prior scores).1 ++ (pchfLoop prior idv [1 - pg] rest).1,
       (chfFlush prior scores).2 ++ (pchfLoop prior idv [1 - pg] rest).2)
    else
      pchfLoop prior current (scores ++ [1 - pg]) rest

/-- posterior_chromatogram_hypotheses_fast (stats.py:131-184): rows are
(tg_num_id, pg_score) pairs; the first returned list is the per-row
hypothesis probability, the second the per-row h0.  An empty frame raises at
tg_ids[0] (stats.py:156). -/
def posteriorChromatogramHypothesesFast (rows : List (ℤ × ℚ)) (prior : ℚ) :
    Except String (List ℚ × List ℚ) :=
  match rows with
  | [] => .error msgIndexError
  | (id0, _) :: _ => .ok (pchfLoop prior id0 [] rows)

/-- The maximal consecutive runs of equal group ids, written with the same
accumulator recursion as the loop it describes. -/
def runsLoop : ℤ → List (ℤ × ℚ) → List (ℤ × ℚ) → List (List (ℤ × ℚ))
  | _, acc, [] => [acc]
  | current, acc, (idv, pg) :: rest =>
    if idv ≠ current then acc :: runsLoop idv [(idv, pg)] rest
    else runsLoop current (acc ++ [(idv, pg)]) rest

def pyRuns (rows : List (ℤ × ℚ)) : List (List (ℤ × ℚ)) :=
  match rows with
  | [] => []
  | (id0, _) :: _ => runsLoop id0 [] rows

/-! ## Scorer persistence (pyprophet.py:192-205)

Scorer.__init__ stores the first component of the pair returned by
error_statistics — a plain pandas DataFrame — as self.error_stat
(pyprophet.py:118, stats.py:519).  minimal_error_stat (pyprophet.py:192-195)
then reads self.error_stat.df, self.error_stat.num_null and
self.error_stat.num_total, the fields of the ErrorStatistics namedtuple of
stats.py:35, which the DataFrame does not have: pandas attribute lookup
resolves real DataFrame attributes and column names, and anything else
raises AttributeError.  __getstate__ (pyprophet.py:197-201) evaluates
minimal_error_stat before storing it, so pickling a Scorer raises. -/

/-- Column names of the error_statistics DataFrame (stats.py:511,515); the
Scorer constructor passes compute_lfdr = True (pyprophet.py:126), making the
pep column present there. -/
def errorStatColumns (computeLfdr : Bool) : List String :=
  ["cutoff", "pvalue", "qvalue", "svalue", "tp", "fp", "tn", "fn", "fpr",
   "fdr", "fnr"] ++ (if computeLfdr then ["pep"] else [])

/-- Genuine pandas DataFrame attributes read anywhere in the two source
files. -/
def dataFrameAttrs : List String := ["loc", "iloc", "columns", "values", "index"]

/-- Python attribute lookup on the DataFrame: a real attribute or a column
resolves, anything else raises AttributeError. -/
def dataFrameGetattr (cols : List String) (name : String) : Except String Unit :=
  if name ∈ dataFrameAttrs ∨ name ∈ cols then .ok ()
  else .error ("AttributeError: DataFrame object has no attribute " ++ name)

/-- Scorer.minimal_error_stat (pyprophet.py:192-195): builds
ErrorStatistics(self.error_stat.df.loc[...], self.error_stat.num_null,
self.error_stat.num_total); the .df access is evaluated first. -/
def minimalErrorStat (computeLfdr : Bool) : Except String Unit := do
  let _ ← dataFrameGetattr (errorStatColumns computeLfdr) "df"
  let _ ← dataFrameGetattr (errorStatColumns computeLfdr) "num_null"
  let _ ← dataFrameGetattr (errorStatColumns computeLfdr) "num_total"
  .ok ()

/-- Scorer.__getstate__ (pyprophet.py:197-201): data = vars(self);
data["error_stat"] = self.minimal_error_stat(), whose evaluation is the
first effect. -/
def scorerGetstate (computeLfdr : Bool) : Except String Unit :=
  minimalErrorStat computeLfdr

/-! ## Helper lemmas -/

lemma ok_bind {α β : Type} (a : α) (f : α → Except String β) :
    (Except.ok a).bind f = f a := rfl

lemma error_bind {α β : Type} (e : String) (f : α → Except String β) :
    (Except.error e).bind f = .error e := rfl

lemma sum_map_div (l : List ℚ) (d : ℚ) :
    (l.map (fun x => x / d)).sum = l.sum / d := by
  induction l with
  | nil => simp
  | cons x xs ih => simp [ih, add_div]

lemma chain_le_cons_cummaxFrom (xs : List ℚ) : ∀ m : ℚ,
    List.Chain' (fun a b => a ≤ b) (m :: cummaxFrom m xs) := by
  induction xs with
  | nil => intro m; simp [cummaxFrom]
  | cons x xs ih =>
    intro m
    rw [cummaxFrom, List.chain'_cons]
    exact ⟨le_max_left m x, ih (max m x)⟩

lemma chain_le_cummax (xs : List ℚ) :
    List.Chain' (fun a b => a ≤ b) (cummax xs) := by
  cases xs with
  | nil => simp [cummax]
  | cons x xs => exact chain_le_cons_cummaxFrom xs x

lemma mem_cummaxFrom_le (b : ℚ) (xs : List ℚ) : ∀ m : ℚ, m ≤ b →
    (∀ x ∈ xs, x ≤ b) → ∀ y ∈ cummaxFrom m xs, y ≤ b := by
  induction xs with
  | nil => intro m _ _ y hy; simp [cummaxFrom] at hy
  | cons x xs ih =>
    intro m hm hxs y hy
    rw [cummaxFrom] at hy
    rcases List.mem_cons.mp hy with rfl | hy
    · exact max_le hm (hxs x (List.mem_cons_self x xs))
    · exact ih (max m x) (max_le hm (hxs x (List.mem_cons_self x xs)))
        (fun z hz => hxs z (List.mem_cons_of_mem x hz)) y hy

lemma mem_cummax_le (b : ℚ) (xs : List ℚ) (hxs : ∀ x ∈ xs, x ≤ b) :
    ∀ y ∈ cummax xs, y ≤ b := by
  cases xs with
  | nil => intro y hy; simp [cummax] at hy
  | cons x xs =>
    intro y hy
    rw [cummax] at hy
    rcases List.mem_cons.mp hy with rfl | hy
    · exact hxs y (List.mem_cons_self y xs)
    · exact mem_cummaxFrom_le b xs x (hxs x (List.mem_cons_self x xs))
        (fun z hz => hxs z (List.mem_cons_of_mem x hz)) y hy

lemma getD_le_of_forall_le (b d : ℚ) (l : List ℚ) (hd : d ≤ b)
    (hl : ∀ x ∈ l, x ≤ b) : ∀ i : ℕ, l.getD i d ≤ b := by
  induction l with
  | nil => intro i; simpa [List.getD] using hd
  | cons x xs ih =>
    intro i
    cases i with
    | zero => exact hl x (List.mem_cons_self x xs)
    | succ j =>
      exact ih (fun z hz => hl z (List.mem_cons_of_mem x hz)) j

/-! ## Claim C1 -/

/-- Claim C1 (code bug): qvalue is claimed to enforce the monotonicity law by
a sweep from the largest p-value down, each q-value capped at the next
larger-p q-value.  The loop at stats.py:373 is written
range(m - 2, 1, 1), which is empty for every m at least 3, so the sweep never
runs there: at p = [1/2, 3/5, 3/5] with pi0 = 1 the code returns
[3/2, 3/5, 3/5] — a q-value above 1, not capped at the next larger-p q-value
— while the sweep the spec describes yields [3/5, 3/5, 3/5].  For m = 2 the
loop body does run once and produces exactly the capped result
[1/5, 9/10] at p = [1/10, 9/10], whose ascending-p q-values are increasing,
so the law the sweep enforces is non-decreasing (not non-increasing) in
ascending-p order. -/
theorem qvalue_sweep_dead_code :
    qvaluePy [1/2, 3/5, 3/5] 1 false = .ok [3/2, 3/5, 3/5] ∧
    qvalueSpecSweep [1/2, 3/5, 3/5] 1 false = [3/5, 3/5, 3/5] ∧
    qvaluePy [1/10, 9/10] 1 false = .ok [1/5, 9/10] :=
  ⟨by with_unfolding_all rfl, by with_unfolding_all rfl, by with_unfolding_all rfl⟩

/-! ## Claim C2 -/

/-- Claim C2 (code bug): persisting a trained Scorer is claimed to replace
its error table with the minimal column subset and to allow re-scoring from
the persisted bundle.  But error_statistics returns a plain DataFrame
(stats.py:519) while minimal_error_stat reads the fields df, num_null,
num_total of the ErrorStatistics namedtuple from it (pyprophet.py:193-194),
so Scorer.__getstate__ raises AttributeError on the very first attribute
access and no pickled artifact is ever produced, with or without the pep
column. -/
theorem scorer_getstate_attribute_error (computeLfdr : Bool) :
    scorerGetstate computeLfdr =
      .error "AttributeError: DataFrame object has no attribute df" := by
  cases computeLfdr <;> with_unfolding_all rfl

/-! ## Claim C4 -/

/-- Claim C4 (code bug): an empty decoy sample is claimed to raise
DataInsufficiencyError rather than produce NaN mean/std.  No such error
class exists in the source: mean_and_std_dev computes np.mean and np.std of
the empty array, both NaN, and error_statistics then dies later with a
generic error — an AssertionError inside pemp on the empirical path, or a
ValueError at the min() call of pi0est on the parametric path once the
all-NaN p-values have been dropped. -/
theorem empty_decoys_nan_no_data_insufficiency_error (phi r : ℚ → ℚ)
    (targets : List ℚ) (lam eps : ℚ) (pe pf cl tr mo : Bool) :
    errorStatistics phi r targets [] lam pe pf cl tr mo eps =
      .error (if pe then msgAssertionError else msgMinEmpty) ∧
    meanAndStdDevIsNaN [] = (true, true) := by
  constructor
  · cases pe with
    | true =>
      simp [errorStatistics, targetPvaluesStage, pempE, Except.map,
        ok_bind, error_bind, msgAssertionError]
    | false =>
      simp [errorStatistics, targetPvaluesStage, meanAndStdDevIsNaN,
        pi0estQ, sortDesc, isortLe, ok_bind, error_bind, msgMinEmpty]
  · rfl

/-! ## Claim C7 -/

/-- Claim C7 (confirmed): every value pemp returns is at least
1/len(stat0) — the final flooring step at stats.py:222 raises any value at
most 1/m0 to exactly 1/m0 and leaves the larger ones, so every output is
bounded below by 1/m0; in particular this holds when stat equals stat0. -/
theorem pemp_floor_lower_bound (stat stat0 : List ℚ) (out : List ℚ)
    (h : pempE stat stat0 = .ok out) :
    ∀ q ∈ out, 1 / (stat0.length : ℚ) ≤ q := by
  intro q hq
  unfold pempE at h
  by_cases h0 : stat0.isEmpty
  · simp [h0] at h
  · by_cases h1 : stat.isEmpty
    · simp [h0, h1] at h
    · simp only [h0, h1, Bool.false_eq_true, if_false] at h
      injection h with h
      subst h
      rw [List.mem_map] at hq
      obtain ⟨x, _, rfl⟩ := hq
      by_cases hx : x ≤ 1 / (stat0.length : ℚ)
      · rw [if_pos hx]
      · rw [if_neg hx]
        exact le_of_lt (lt_of_not_le hx)

/-- Witness for C7 at stat = stat0 = [1, 2]: pemp returns [1/2, 1/2] and the
bound 1/len(stat0) = 1/2 holds at the member 1/2. -/
theorem pemp_floor_lower_bound_witness :
    pempE [1, 2] [1, 2] = .ok [1/2, 1/2] ∧
    1 / ((([1, 2] : List ℚ).length : ℚ)) ≤ 1/2 :=
  ⟨by with_unfolding_all rfl,
   pemp_floor_lower_bound [1, 2] [1, 2] [1/2, 1/2] (by with_unfolding_all rfl)
     (1/2) (by norm_num)⟩

/-! ## Claim C9 -/

/-- Claim C9 (corrected), counterexample: with truncation requested the
returned local-FDR values are claimed to all lie in [0,1], but
stats.py:453-454 clips only values above 1; when the abstracted density
estimate makes the raw local FDR negative (a spline can overshoot below
zero), the negative values pass both the truncation and the monotone
adjustment unchanged: at the p-values [1/4, 1/2] (two points, so the
bandwidth guard of bw_nrd0 is satisfied) with raw values -1/2 the function
returns [-1/2, -1/2], which lies outside [0,1]. -/
theorem lfdr_trunc_counterexample :
    lfdrQ (fun _ => -(1/2)) [1/4, 1/2] 1 true true (1/100000000) =
      .ok [-(1/2), -(1/2)] ∧
    (-(1:ℚ)/2) < 0 :=
  ⟨by with_unfolding_all rfl, by norm_num⟩

/-- Claim C9 (corrected, amended): with trunc = True every returned value is
at most 1 (values above 1 are set to 1), but values below 0 are not clipped;
with trunc = False no clipping is applied — with the monotone adjustment
also off the values are returned exactly as computed. -/
theorem lfdr_trunc_amended (r : ℚ → ℚ) (p : List ℚ) (pi0 eps : ℚ) (mo : Bool) :
    (∀ out, lfdrQ r p pi0 true mo eps = .ok out → ∀ v ∈ out, v ≤ 1) ∧
    (∀ out, lfdrQ r p pi0 false false eps = .ok out → out = lfdrRaw r p eps) := by
  have hl1 : ∀ y ∈ (lfdrRaw r p eps).map (fun w => if 1 < w then 1 else w),
      y ≤ 1 := by
    intro y hy
    rw [List.mem_map] at hy
    obtain ⟨w, _, rfl⟩ := hy
    by_cases hw : 1 < w
    · rw [if_pos hw]
    · rw [if_neg hw]
      exact le_of_not_lt hw
  constructor
  · intro out h v hv
    unfold lfdrQ at h
    split_ifs at h
    injection h with h
    subst h
    unfold lfdrCore at hv
    cases mo with
    | false => exact hl1 v (by simpa using hv)
    | true =>
      simp only [Bool.true_eq, if_true, List.mem_map] at hv
      obtain ⟨rk, _, rfl⟩ := hv
      refine getD_le_of_forall_le 1 0 _ (by norm_num) ?_ _
      refine mem_cummax_le 1 _ ?_
      intro z hz
      rw [List.mem_map] at hz
      obtain ⟨i, _, rfl⟩ := hz
      exact getD_le_of_forall_le 1 0 _ (by norm_num) hl1 i
  · intro out h
    unfold lfdrQ at h
    split_ifs at h
    injection h with h
    exact h.symm

/-- Witness for C9 at p = [1/4, 1/2] (long enough for the bandwidth guard):
raw values 2 are truncated to 1, which is at most 1; and with trunc and
monotone off the raw value list [2, 2] is returned as computed. -/
theorem lfdr_trunc_amended_witness :
    lfdrQ (fun _ => 2) [1/4, 1/2] 1 true true (1/100000000) = .ok [1, 1] ∧
    (1:ℚ) ≤ 1 ∧
    [(2:ℚ), 2] = lfdrRaw (fun _ => 2) [1/4, 1/2] (1/100000000) :=
  ⟨by with_unfolding_all rfl,
   (lfdr_trunc_amended (fun _ => 2) [1/4, 1/2] 1 (1/100000000) true).1 [1, 1]
     (by with_unfolding_all rfl) 1 (by norm_num),
   (lfdr_trunc_amended (fun _ => 2) [1/4, 1/2] 1 (1/100000000) true).2 [2, 2]
     (by with_unfolding_all rfl)⟩

/-! ## Claim C6 -/

/-- Claim C6 (corrected), counterexample: with the single-point grid
lambda = 1/2 and the p-value array [1/10] — entries in [0,1], lambda in
[0,1) — pi0est does not return mean(p >= lambda)/(1 - lambda) capped at 1:
the estimate is 0, and stats.py:346-347 aborts through sys.exit instead of
returning. -/
theorem pi0est_single_lambda_counterexample :
    pi0estQ [1/10] (1/2) = .error msgPi0LeZero := by
  with_unfolding_all rfl

/-- Claim C6 (corrected, amended): for a nonempty p-value array with entries
in [0,1] and a single-point lambda grid with lambda in [0,1), provided at
least one entry is at least lambda (otherwise the estimate is 0 and pi0est
aborts via sys.exit rather than returning), pi0est returns
mean(p >= lambda)/(1 - lambda) exactly, capped at 1. -/
theorem pi0est_single_lambda_amended (p : List ℚ) (lam : ℚ) (hne : p ≠ [])
    (hrange : ∀ x ∈ p, 0 ≤ x ∧ x ≤ 1) (hlam : 0 ≤ lam ∧ lam < 1)
    (hx : ∃ x ∈ p, lam ≤ x) :
    pi0estQ p lam =
      .ok (min (((p.countP (fun x => decide (lam ≤ x)) : ℚ) / (p.length : ℚ)) /
        (1 - lam)) 1) := by
  have hpos : 0 < ((p.countP (fun x => decide (lam ≤ x)) : ℚ) / (p.length : ℚ)) /
      (1 - lam) := by
    apply div_pos
    · apply div_pos
      · rw [Nat.cast_pos, List.countP_pos_iff]
        obtain ⟨x, hxp, hlx⟩ := hx
        exact ⟨x, hxp, by simpa using hlx⟩
      · rw [Nat.cast_pos, List.length_pos]
        exact hne
    · linarith [hlam.2]
  unfold pi0estQ
  rw [if_neg, if_neg, if_neg, if_neg]
  · exact not_le.mpr (lt_min hpos one_pos)
  · rintro (hl | hl)
    · exact absurd hl (not_lt.mpr hlam.1)
    · exact absurd hl (not_le.mpr hlam.2)
  · rw [Bool.or_eq_true, not_or]
    constructor
    · rw [List.any_eq_true]
      rintro ⟨x, hxp, hlt⟩
      exact absurd (of_decide_eq_true hlt) (not_lt.mpr (hrange x hxp).1)
    · rw [List.any_eq_true]
      rintro ⟨x, hxp, hlt⟩
      exact absurd (of_decide_eq_true hlt) (not_lt.mpr (hrange x hxp).2)
  · rw [List.isEmpty_iff]
    exact hne

/-- Witness for C6 at p = [1/2, 3/4], lambda = 1/4: both entries are at
least lambda, and pi0est returns min((2/2)/(3/4), 1) = 1. -/
theorem pi0est_single_lambda_amended_witness :
    ([(1:ℚ)/2, 3/4] ≠ []) ∧ (∃ x ∈ [(1:ℚ)/2, 3/4], (1:ℚ)/4 ≤ x) ∧
    pi0estQ [1/2, 3/4] (1/4) =
      .ok (min (((([(1:ℚ)/2, 3/4].countP (fun x => decide ((1:ℚ)/4 ≤ x))) : ℚ) /
        (([(1:ℚ)/2, 3/4].length : ℚ))) / (1 - 1/4)) 1) :=
  ⟨by simp, by norm_num,
   pi0est_single_lambda_amended [1/2, 3/4] (1/4) (by simp) (by norm_num)
     (by norm_num) (by norm_num)⟩

/-! ## Destructing a successful error_statistics call -/

lemma bind_ok_elim {α β : Type} (x : Except String α) (f : α → Except String β)
    (b : β) (h : x.bind f = .ok b) : ∃ a, x = .ok a ∧ f a = .ok b := by
  cases x with
  | error e => simp [Except.bind] at h
  | ok a => exact ⟨a, rfl, by simpa [Except.bind] using h⟩

lemma errorStatistics_ok_elim (phi r : ℚ → ℚ) (targets decoys : List ℚ)
    (lam eps : ℚ) (pe pf cl tr mo : Bool) (t : ErrTable) (pi0 : ℚ)
    (h : errorStatistics phi r targets decoys lam pe pf cl tr mo eps = .ok (t, pi0)) :
    ∃ ps qv pep, targetPvaluesStage phi targets decoys pe = .ok (some ps) ∧
      pi0estQ (sortDesc ps) lam = .ok pi0 ∧
      qvaluePy (sortDesc ps) pi0 pf = .ok qv ∧
      pf = false ∧
      (if cl then (lfdrQ r qv pi0 tr mo eps).map some else .ok none) = .ok pep ∧
      t = mkErrTable targets qv pi0 pep := by
  unfold errorStatistics at h
  obtain ⟨pOpt, h1, ha⟩ := bind_ok_elim _ _ _ h
  obtain ⟨pi0x, h2, hb⟩ := bind_ok_elim _ _ _ ha
  obtain ⟨qv, h3, hc⟩ := bind_ok_elim _ _ _ hb
  clear h ha hb
  cases pOpt with
  | none => simp [pi0estQ, sortDesc, isortLe] at h2
  | some ps =>
    simp only [Option.getD_some] at h2 h3
    cases pf with
    | true => simp at hc
    | false =>
      simp only [Bool.false_eq_true, if_false] at hc
      obtain ⟨pep, h4, hd⟩ := bind_ok_elim _ _ _ hc
      simp only [Except.ok.injEq, Prod.mk.injEq] at hd
      obtain ⟨ht, hpi⟩ := hd
      subst hpi
      exact ⟨ps, qv, pep, h1, h2, h3, rfl, h4, ht.symm⟩

/-! ## Claim C3 -/

/-- Claim C3 (confirmed): qvalue writes its result into the array passed as
its first argument (qvals_out aliases p, stats.py:354,376), so in every
successful error_statistics call the pvalue and qvalue columns of the
returned table are element-wise identical — both are the post-call content
of target_pvalues — and tp/fp/tn/fn, the sensitivity behind svalue, and the
pep column are all computed from the overwritten q-values rather than from
the original target p-values. -/
theorem error_statistics_pvalue_qvalue_alias (phi r : ℚ → ℚ)
    (targets decoys : List ℚ) (lam eps : ℚ) (pe pf cl tr mo : Bool)
    (t : ErrTable) (pi0 : ℚ)
    (h : errorStatistics phi r targets decoys lam pe pf cl tr mo eps = .ok (t, pi0)) :
    t.pvalue = t.qvalue ∧
    (∃ ps, targetPvaluesStage phi targets decoys pe = .ok (some ps) ∧
       pi0estQ (sortDesc ps) lam = .ok pi0 ∧
       qvaluePy (sortDesc ps) pi0 pf = .ok t.qvalue) ∧
    t.tp = ((countNumPositives t.qvalue).zip t.qvalue).map
      (fun c => ((c.1 : ℚ)) - pi0 * (t.qvalue.length : ℚ) * c.2) ∧
    t.fp = t.qvalue.map (fun q => pi0 * (t.qvalue.length : ℚ) * q) ∧
    t.tn = t.qvalue.map (fun q => pi0 * (t.qvalue.length : ℚ) * (1 - q)) ∧
    t.fn = ((countNumPositives t.qvalue).zip t.qvalue).map
      (fun c => ((t.qvalue.length : ℚ) - (c.1 : ℚ)) -
        pi0 * (t.qvalue.length : ℚ) * (1 - c.2)) ∧
    t.svalue = (cummax ((t.tp.map (fun x => x /
      ((t.qvalue.length : ℚ) - pi0 * (t.qvalue.length : ℚ)))).reverse)).reverse ∧
    (cl = true → ∃ l, lfdrQ r t.qvalue pi0 tr mo eps = .ok l ∧ t.pep = some l) := by
  obtain ⟨ps, qv, pep, h1, h2, h3, hpf, h4, ht⟩ :=
    errorStatistics_ok_elim phi r targets decoys lam eps pe pf cl tr mo t pi0 h
  subst ht
  refine ⟨rfl, ⟨ps, h1, h2, h3⟩, rfl, rfl, rfl, rfl, rfl, ?_⟩
  intro hcl
  subst hcl
  simp only [if_true] at h4
  cases h5 : lfdrQ r qv pi0 tr mo eps with
  | error e => rw [h5] at h4; simp [Except.map] at h4
  | ok l =>
    rw [h5] at h4
    simp only [Except.map, Except.ok.injEq] at h4
    exact ⟨l, h5, h4.symm⟩

/-- The table returned by error_statistics on target scores [1,2,3] and
decoy scores [1,2,3] with empirical p-values, lambda = 1/2, and all other
options off. -/
def tableA : ErrTable :=
  { cutoff := [1, 2, 3], pvalue := [4/9, 1/3, 1/3], qvalue := [4/9, 1/3, 1/3],
    svalue := [19/9, 4/3, 4/3], tp := [19/9, 4/3, 4/3], fp := [8/9, 2/3, 2/3],
    tn := [10/9, 4/3, 4/3], fn := [-10/9, -1/3, -1/3],
    fpr := [4/9, 1/3, 1/3], fdr := [8/27, 1/3, 1/3], fnr := [0, -1/3, -1/3],
    pep := none }

/-- Witness for C3: on targets [1,2,3], decoys [1,2,3], lambda 1/2 with
empirical p-values the call returns tableA, whose pvalue and qvalue columns
coincide (both hold the q-values [4/9, 1/3, 1/3], not the raw p-values
[2/3, 1/3, 1/3]). -/
theorem error_statistics_pvalue_qvalue_alias_witness :
    errorStatistics (fun _ => 0) (fun _ => 0) [1, 2, 3] [1, 2, 3] (1/2)
      true false false false false (1/100000000) = .ok (tableA, 2/3) ∧
    tableA.pvalue = tableA.qvalue :=
  ⟨by with_unfolding_all rfl,
   (error_statistics_pvalue_qvalue_alias (fun _ => 0) (fun _ => 0) [1, 2, 3]
     [1, 2, 3] (1/2) (1/100000000) true false false false false tableA (2/3)
     (by with_unfolding_all rfl)).1⟩

/-! ## Claim C8 -/

lemma chain_ge_rev_cummax (xs : List ℚ) :
    List.Chain' (fun a b => b ≤ a) ((cummax xs.reverse).reverse) := by
  rw [List.chain'_reverse]
  exact chain_le_cummax xs.reverse

/-- Claim C8 (corrected), counterexample: on targets [1,2,3] and decoys
[1,2,3] (empirical p-values, lambda 1/2) the svalue column is
[19/9, 4/3, 4/3] over rows of ascending cutoff; it is not the forward
cumulative maximum of sens (the maximum sensitivity at laxer, i.e. lower,
cutoffs would be [19/9, 19/9, 19/9]), and read from the strictest cutoff to
the laxest it is increasing, not non-increasing: the exposed s-value is the
maximum of sens over cutoffs at least as strict, and the series decreases
as the cutoff tightens. -/
theorem svalue_laxer_counterexample :
    errorStatistics (fun _ => 0) (fun _ => 0) [1, 2, 3] [1, 2, 3] (1/2)
      true false false false false (1/100000000) = .ok (tableA, 2/3) ∧
    tableA.svalue ≠ cummax (sensOf tableA (2/3)) ∧
    ¬ List.Chain' (fun a b : ℚ => a ≤ b) tableA.svalue := by
  refine ⟨by with_unfolding_all rfl, ?_, ?_⟩
  · have hc : cummax (sensOf tableA (2/3)) = [19/9, 19/9, 19/9] := by
      with_unfolding_all rfl
    rw [hc]
    intro heq
    have : ((19:ℚ)/9) = 4/3 := by
      have h2 := congrArg (fun l => l.getD 1 0) heq
      simpa [tableA] using h2.symm
    norm_num at this
  · intro hch
    rw [show tableA.svalue = [(19:ℚ)/9, 4/3, 4/3] from rfl] at hch
    rcases List.chain'_cons.mp hch with ⟨hle, _⟩
    norm_num at hle

/-- Claim C8 (corrected, amended): the svalue column is the reverse
cumulative maximum of sens = tp/(num_total - num_null) over the rows of
ascending cutoff — at each cutoff the exposed s-value is the maximum
sensitivity achievable at any cutoff at least as strict — and the series is
non-increasing as the cutoff increases, i.e. non-decreasing as the cutoff
relaxes from strict to lax. -/
theorem svalue_reverse_cummax_amended (phi r : ℚ → ℚ)
    (targets decoys : List ℚ) (lam eps : ℚ) (pe pf cl tr mo : Bool)
    (t : ErrTable) (pi0 : ℚ)
    (h : errorStatistics phi r targets decoys lam pe pf cl tr mo eps = .ok (t, pi0)) :
    t.svalue = (cummax (sensOf t pi0).reverse).reverse ∧
    List.Chain' (fun a b => b ≤ a) t.svalue := by
  obtain ⟨ps, qv, pep, _, _, _, _, _, ht⟩ :=
    errorStatistics_ok_elim phi r targets decoys lam eps pe pf cl tr mo t pi0 h
  subst ht
  exact ⟨rfl, chain_ge_rev_cummax _⟩

/-- Witness for C8 at the concrete call of the counterexample input: the
svalue column of tableA equals the reverse cumulative maximum of its sens
vector and is non-increasing along ascending cutoffs. -/
theorem svalue_reverse_cummax_amended_witness :
    tableA.svalue = (cummax (sensOf tableA (2/3)).reverse).reverse ∧
    List.Chain' (fun a b => b ≤ a) tableA.svalue :=
  svalue_reverse_cummax_amended (fun _ => 0) (fun _ => 0) [1, 2, 3] [1, 2, 3]
    (1/2) (1/100000000) true false false false false tableA (2/3)
    (by with_unfolding_all rfl)

/-! ## Claim C10 -/

/-- Claim C10 (confirmed): with the pFDR option enabled, error_statistics
never returns an error table — the fnr adjustment of the pFDR branch reads
the undefined name p_values (stats.py:505) — and every call that passes the
earlier validation stages fails with exactly that NameError. -/
theorem error_statistics_pfdr_name_error (phi r : ℚ → ℚ)
    (targets decoys : List ℚ) (lam eps : ℚ) (pe cl tr mo : Bool) :
    (errorStatistics phi r targets decoys lam pe true cl tr mo eps).isOk = false ∧
    (∀ ps pi0 qv, targetPvaluesStage phi targets decoys pe = .ok (some ps) →
      pi0estQ (sortDesc ps) lam = .ok pi0 →
      qvaluePy (sortDesc ps) pi0 true = .ok qv →
      errorStatistics phi r targets decoys lam pe true cl tr mo eps =
        .error msgNameError) := by
  constructor
  · cases h1 : targetPvaluesStage phi targets decoys pe with
    | error e => simp [errorStatistics, h1, error_bind, Except.isOk, Except.toBool]
    | ok pOpt =>
      cases h2 : pi0estQ (sortDesc (pOpt.getD [])) lam with
      | error e =>
        simp [errorStatistics, h1, h2, ok_bind, error_bind, Except.isOk, Except.toBool]
      | ok pi0 =>
        cases h3 : qvaluePy (sortDesc (pOpt.getD [])) pi0 true with
        | error e =>
          simp [errorStatistics, h1, h2, h3, ok_bind, error_bind, Except.isOk, Except.toBool]
        | ok qv =>
          simp [errorStatistics, h1, h2, h3, ok_bind, error_bind, Except.isOk, Except.toBool]
  · intro ps pi0 qv h1 h2 h3
    simp only [errorStatistics, h1, h2, h3, ok_bind, Option.getD_some,
      if_true]

/-- Witness for C10: targets [1,2,3], decoys [1,2,3], empirical p-values,
lambda 1/2 pass every earlier stage (p-values [2/3,1/3,1/3], pi0 = 2/3,
pFDR q-values [6/13, 9/19, 9/19]) and the call then fails with the
NameError. -/
theorem error_statistics_pfdr_name_error_witness :
    errorStatistics (fun _ => 0) (fun _ => 0) [1, 2, 3] [1, 2, 3] (1/2)
      true true false false false (1/100000000) = .error msgNameError :=
  (error_statistics_pfdr_name_error (fun _ => 0) (fun _ => 0) [1, 2, 3]
    [1, 2, 3] (1/2) (1/100000000) true false false false).2
    [2/3, 1/3, 1/3] (2/3) [6/13, 9/19, 9/19]
    (by with_unfolding_all rfl) (by with_unfolding_all rfl)
    (by with_unfolding_all rfl)

/-! ## Claim C5 -/

lemma chfNums_sum_div (scores : List ℚ) (h0p hp : ℚ)
    (hden : (chfNums scores h0p hp).sum ≠ 0) :
    (singleChromatogramHypothesisFast scores h0p hp).sum = 1 := by
  unfold singleChromatogramHypothesisFast
  rw [sum_map_div]
  exact div_self hden

lemma pchfLoop_eq_runsLoop (prior : ℚ) (rest : List (ℤ × ℚ)) :
    ∀ (cur : ℤ) (acc : List (ℤ × ℚ)),
    pchfLoop prior cur (acc.map rowScore) rest =
      (((runsLoop cur acc rest).map
          (fun run => (chfFlush prior (run.map rowScore)).1)).flatten,
       ((runsLoop cur acc rest).map
          (fun run => (chfFlush prior (run.map rowScore)).2)).flatten) := by
  induction rest with
  | nil => intro cur acc; simp [pchfLoop, runsLoop]
  | cons head rest ih =>
    intro cur acc
    obtain ⟨idv, pg⟩ := head
    by_cases hc : idv = cur
    · subst hc
      rw [pchfLoop, runsLoop, if_neg (by simp), if_neg (by simp)]
      have hmap : acc.map rowScore ++ [1 - pg] =
          (acc ++ [(idv, pg)]).map rowScore := by
        simp [rowScore]
      rw [hmap]
      exact ih idv (acc ++ [(idv, pg)])
    · rw [pchfLoop, runsLoop, if_pos (by simpa using hc),
        if_pos (by simpa using hc)]
      have h1 : [1 - pg] = [(idv, pg)].map rowScore := by simp [rowScore]
      rw [h1, ih idv [(idv, pg)]]
      simp

/-- Claim C5 (confirmed, with the per-group kernel modelled from the spec):
for a table sorted by group id, the output of
posterior_chromatogram_hypotheses_fast decomposes over the maximal runs of
equal group ids — each group of size k contributes the k tail entries of its
normalized hypothesis vector as h-scores and k copies of the head entry (the
single h0 of the group, identical for every row of the group) — and when no
group has a vanishing normalizer, the k+1 hypothesis probabilities of each
group (its h0 plus the h-scores of its k rows) sum to exactly 1. -/
theorem chromatogram_hypotheses_sum_one (rows : List (ℤ × ℚ)) (prior : ℚ)
    (hne : rows ≠ [])
    (hsorted : List.Chain' (fun a b => a.1 ≤ b.1) rows)
    (hden : ∀ run ∈ pyRuns rows,
      (chfNums (run.map rowScore) prior ((1 - prior) / ((run.map rowScore).length : ℚ))).sum ≠ 0) :
    posteriorChromatogramHypothesesFast rows prior =
      .ok (((pyRuns rows).map
              (fun run => (chfFlush prior (run.map rowScore)).1)).flatten,
           ((pyRuns rows).map
              (fun run => (chfFlush prior (run.map rowScore)).2)).flatten) ∧
    (∀ run ∈ pyRuns rows,
      (chfFlush prior (run.map rowScore)).2 =
        List.replicate run.length
          ((singleChromatogramHypothesisFast (run.map rowScore) prior
            ((1 - prior) / ((run.map rowScore).length : ℚ))).headD 0)) ∧
    (∀ run ∈ pyRuns rows,
      (singleChromatogramHypothesisFast (run.map rowScore) prior
        ((1 - prior) / ((run.map rowScore).length : ℚ))).sum = 1) := by
  refine ⟨?_, ?_, ?_⟩
  · match rows, hne with
    | (id0, pg0) :: rest, _ =>
      have hpc := pchfLoop_eq_runsLoop prior ((id0, pg0) :: rest) id0 []
      simp only [List.map_nil] at hpc
      show Except.ok (pchfLoop prior id0 [] ((id0, pg0) :: rest)) =
        Except.ok (((runsLoop id0 [] ((id0, pg0) :: rest)).map
            (fun run => (chfFlush prior (run.map rowScore)).1)).flatten,
          ((runsLoop id0 [] ((id0, pg0) :: rest)).map
            (fun run => (chfFlush prior (run.map rowScore)).2)).flatten)
      rw [hpc]
  · intro run _
    unfold chfFlush
    simp [List.length_map]
  · intro run hrun
    exact chfNums_sum_div _ _ _ (hden run hrun)

/-- Witness for C5 on the sorted two-group table
[(1, 1/2), (1, 1/3), (2, 1/4)] with null prior 1/5: the groups are
[(1, 1/2), (1, 1/3)] and [(2, 1/4)], every group normalizer is nonzero, and
each group's hypothesis probabilities sum to 1 — concretely the call returns
h-scores [1/2, 1/4, 4/7] and h0-scores [1/4, 1/4, 3/7]. -/
theorem chromatogram_hypotheses_sum_one_witness :
    ([((1:ℤ), (1:ℚ)/2), (1, 1/3), (2, 1/4)] ≠ []) ∧
    posteriorChromatogramHypothesesFast
      [((1:ℤ), (1:ℚ)/2), (1, 1/3), (2, 1/4)] (1/5) =
      .ok ([1/2, 1/4, 4/7], [1/4, 1/4, 3/7]) ∧
    (∀ run ∈ pyRuns [((1:ℤ), (1:ℚ)/2), (1, 1/3), (2, 1/4)],
      (singleChromatogramHypothesisFast (run.map rowScore) (1/5)
        ((1 - 1/5) / ((run.map rowScore).length : ℚ))).sum = 1) :=
  ⟨by simp,
   by with_unfolding_all rfl,
   (chromatogram_hypotheses_sum_one [((1:ℤ), (1:ℚ)/2), (1, 1/3), (2, 1/4)]
     (1/5) (by simp) (by norm_num)
     (by
       intro run hrun
       have hruns : pyRuns [((1:ℤ), (1:ℚ)/2), (1, 1/3), (2, 1/4)] =
           [[((1:ℤ), (1:ℚ)/2), (1, 1/3)], [(2, 1/4)]] := by
         with_unfolding_all rfl
       rw [hruns] at hrun
       rcases List.mem_cons.mp hrun with rfl | hrun
       · have : (chfNums ([((1:ℤ), (1:ℚ)/2), (1, 1/3)].map rowScore) (1/5)
             ((1 - 1/5) / (([((1:ℤ), (1:ℚ)/2), (1, 1/3)].map rowScore).length : ℚ))).sum
             = 4/15 := by with_unfolding_all rfl
         rw [this]
         norm_num
       · rcases List.mem_cons.mp hrun with rfl | hrun
         · have : (chfNums ([((2:ℤ), (1:ℚ)/4)].map rowScore) (1/5)
               ((1 - 1/5) / (([((2:ℤ), (1:ℚ)/4)].map rowScore).length : ℚ))).sum
               = 7/20 := by with_unfolding_all rfl
           rw [this]
           norm_num
         · simp at hrun)).2.2⟩

end PyProphet
